import Mathlib

/-!
Formal model of the lego_robotics exoskeleton motion controller.

The definitions below are a shallow embedding of the Python sources:

* `src/tests/test_exo_movements.py` — clamp, set_both_power,
  phased_power_profile, compute_smoothness, run_phase, main;
* `src/tests/exo_control_gui.py` — ExoController._wait_until_settled.

Python floats are modelled as exact rationals `ℚ` wherever the code only
uses field operations and comparisons; `math.sqrt`, `math.cos` and the
derived smoothness score live in `ℝ`.  Python's `float('nan')` has no
counterpart in `ℝ`, so the analyzer's `rms_jerk` field is an `Option ℝ`
with `none` standing for the not-a-number degenerate value.  Division in
`ℚ`/`ℝ` is total, so "no division by zero" facts are expressed as
positivity of every divisor actually used.
-/

set_option maxHeartbeats 1000000
set_option maxRecDepth 8000

/-- Source `clamp(val, lo, hi) = max(lo, min(hi, val))`
(`test_exo_movements.py`, lines 23-24). -/
def clamp (val lo hi : ℚ) : ℚ := max lo (min hi val)

/-- Python's `int(q)` on a real number truncates toward zero. -/
def pyInt (q : ℚ) : ℤ := if 0 ≤ q then ⌊q⌋ else ⌈q⌉

/-- Source `SAMPLE_DT = 0.02` (50 Hz sampling period, line 20). -/
def SAMPLE_DT : ℚ := 1 / 50

/-- The two actuator ports used by the controller (BrickPi ports B and C). -/
inductive Port where
  | B
  | C
deriving DecidableEq, Repr

/-- Hardware actions the controller can emit: a power write to one port, or
the final `reset_all()`. -/
inductive Act where
  | setPower (port : Port) (duty : ℤ)
  | resetAll
deriving DecidableEq, Repr

/-- Source `set_both_power(bp, p)` (lines 27-30): `p = int(clamp(p, -100, 100))`
followed by the same power write to port B and port C. -/
def set_both_power (p : ℚ) : List Act :=
  [Act.setPower Port.B (pyInt (clamp p (-100) 100)),
   Act.setPower Port.C (pyInt (clamp p (-100) 100))]

/-- Source `phased_power_profile(t, duration, ramp, duty)` (lines 44-61):
ramp is clamped to `[0, duration/2]`, then the trapezoid cases are tested
in order: `t <= 0` gives 0; `t < ramp` (with positive ramp) ramps up;
`t <= duration - ramp` cruises; `t < duration` (with positive ramp) ramps
down; otherwise 0. -/
def phased_power_profile (t duration ramp duty : ℚ) : ℚ :=
  let r := clamp ramp 0 (duration / 2)
  if t ≤ 0 then 0
  else if t < r ∧ 0 < r then duty * (t / r)
  else if t ≤ duration - r then duty
  else if t < duration ∧ 0 < r then duty * (1 - (t - (duration - r)) / r)
  else 0

/-- The velocity-guard decision inlined in `run_phase` (lines 189-203):
`none` models the hard-limit `RuntimeError`; otherwise the command is
soft-scaled by `vmax / |vel|` when `|vel| > vmax` and the commanded
magnitude exceeds `1e-3`, and passed through unchanged otherwise. -/
def velocityGuard (vel cmd vmax vhard : ℚ) : Option ℚ :=
  if vhard < |vel| then none
  else if vmax < |vel| ∧ 1 / 1000 < |cmd| then some (cmd * (vmax / |vel|))
  else some cmd

lemma clamp_lo_le (val lo hi : ℚ) : lo ≤ clamp val lo hi := le_max_left _ _

lemma clamp_le_hi (val lo hi : ℚ) (h : lo ≤ hi) : clamp val lo hi ≤ hi :=
  max_le h (min_le_left _ _)

lemma phased_power_profile_eval (t duration ramp duty : ℚ) :
    phased_power_profile t duration ramp duty =
      if t ≤ 0 then 0
      else if t < clamp ramp 0 (duration / 2) ∧ 0 < clamp ramp 0 (duration / 2) then
        duty * (t / clamp ramp 0 (duration / 2))
      else if t ≤ duration - clamp ramp 0 (duration / 2) then duty
      else if t < duration ∧ 0 < clamp ramp 0 (duration / 2) then
        duty * (1 - (t - (duration - clamp ramp 0 (duration / 2))) / clamp ramp 0 (duration / 2))
      else 0 := rfl

/-- C1 (amended): with `r` the ramp time clamped to `[0, duration/2]`, the
trapezoid profile returns `duty·(t/r)` for `0 < t < r`, the constant `duty`
for `0 < t` with `r ≤ t ≤ duration − r` (including `t = duration` when
`r = 0`), `duty·(1 − (t − (duration − r))/r)` for `duration − r < t < duration`
with `r > 0`, and `0` when `t ≤ 0`, when `t > duration`, or when
`t = duration` with `r > 0`. -/
theorem trapezoid_profile_cases (t duration ramp duty : ℚ) (hd : 0 < duration) :
    (0 < t → t < clamp ramp 0 (duration / 2) →
      phased_power_profile t duration ramp duty =
        duty * (t / clamp ramp 0 (duration / 2))) ∧
    (0 < t → clamp ramp 0 (duration / 2) ≤ t →
      t ≤ duration - clamp ramp 0 (duration / 2) →
      phased_power_profile t duration ramp duty = duty) ∧
    (duration - clamp ramp 0 (duration / 2) < t → t < duration →
      0 < clamp ramp 0 (duration / 2) →
      phased_power_profile t duration ramp duty =
        duty * (1 - (t - (duration - clamp ramp 0 (duration / 2))) /
          clamp ramp 0 (duration / 2))) ∧
    ((t ≤ 0 ∨ duration < t ∨ (t = duration ∧ 0 < clamp ramp 0 (duration / 2))) →
      phased_power_profile t duration ramp duty = 0) := by
  have h0 : (0 : ℚ) ≤ clamp ramp 0 (duration / 2) := clamp_lo_le _ _ _
  have hhi : clamp ramp 0 (duration / 2) ≤ duration / 2 :=
    clamp_le_hi _ _ _ (by linarith)
  rw [phased_power_profile_eval]
  set r := clamp ramp 0 (duration / 2) with hr
  refine ⟨?_, ?_, ?_, ?_⟩
  · intro ht0 htr
    have hrpos : 0 < r := lt_trans ht0 htr
    rw [if_neg (by linarith), if_pos ⟨htr, hrpos⟩]
  · intro ht0 hrt htd
    rw [if_neg (by linarith), if_neg (fun h => absurd h.1 (not_lt.2 hrt)),
      if_pos htd]
  · intro h1 h2 h3
    have hdr : duration / 2 ≤ duration - r := by linarith
    rw [if_neg (by intro h; linarith), if_neg ?_, if_neg (not_le.2 h1),
      if_pos ⟨h2, h3⟩]
    intro h
    have : t < r := h.1
    linarith
  · rintro (h | h | ⟨heq, hrpos⟩)
    · rw [if_pos h]
    · rw [if_neg (by linarith), if_neg ?_, if_neg (by intro hh; linarith),
        if_neg (by intro hh; linarith [hh.1])]
      intro hh
      have : t < r := hh.1
      linarith
    · subst heq
      rw [if_neg (by linarith), if_neg ?_, if_neg (by intro hh; linarith),
        if_neg (fun hh => absurd hh.1 (lt_irrefl _))]
      intro hh
      have : t < r := hh.1
      linarith

/-- C1 witness: the trapezoid example `duty = 80`, `ramp = 0.5 s`,
`duration = 2 s`, `t = 0.25 s` lies in the ramp-up window and evaluates to
`80 · (0.25/0.5) = 40`. -/
theorem trapezoid_profile_cases_witness :
    phased_power_profile (1/4) 2 (1/2) 80 = 80 * ((1/4) / clamp (1/2) 0 (2 / 2)) ∧
    phased_power_profile (1/4) 2 (1/2) 80 = 40 := by
  constructor
  · exact (trapezoid_profile_cases (1/4) 2 (1/2) 80 (by norm_num)).1 (by norm_num)
      (by norm_num [clamp])
  · norm_num [phased_power_profile, clamp]

/-- C1 counterexample: the claim demands `0` whenever `t ≥ duration`, but at
`t = duration = 2` with ramp `0` (so the clamped ramp is `0`) the source's
cruise branch `t <= duration - ramp` still fires and returns the full duty
`80`, not `0`. -/
theorem trapezoid_profile_at_duration_counterexample :
    phased_power_profile 2 2 0 80 = 80 ∧ ¬ phased_power_profile 2 2 0 80 = 0 := by
  norm_num [phased_power_profile, clamp]

/-- C2: in a control-loop iteration with `soft < |v| ≤ hard` (positive soft
limit, soft ≤ hard) and non-negligible commanded magnitude, the guard emits
exactly `cmd · (soft/|v|)`: strictly smaller in magnitude, of the same sign
as `cmd`, never an up-scaling; and whenever `|v| ≤ soft` the command passes
through unchanged. -/
theorem velocityGuard_soft_scaling (vel cmd vmax vhard : ℚ)
    (hpos : 0 < vmax) (hsh : vmax ≤ vhard) (hsoft : vmax < |vel|)
    (hhard : |vel| ≤ vhard) (hcmd : 1 / 1000 < |cmd|) :
    velocityGuard vel cmd vmax vhard = some (cmd * (vmax / |vel|)) ∧
    |cmd * (vmax / |vel|)| < |cmd| ∧
    (0 < cmd → 0 < cmd * (vmax / |vel|)) ∧
    (cmd < 0 → cmd * (vmax / |vel|) < 0) ∧
    (∀ v c, |v| ≤ vmax → velocityGuard v c vmax vhard = some c) := by
  have hv : 0 < |vel| := lt_trans hpos hsoft
  have hscale : 0 < vmax / |vel| := div_pos hpos hv
  have hlt1 : vmax / |vel| < 1 := (div_lt_one hv).2 hsoft
  have hcpos : 0 < |cmd| := lt_trans (by norm_num) hcmd
  refine ⟨?_, ?_, ?_, ?_, ?_⟩
  · unfold velocityGuard
    rw [if_neg (not_lt.2 hhard), if_pos ⟨hsoft, hcmd⟩]
  · calc |cmd * (vmax / |vel|)| = |cmd| * (vmax / |vel|) := by
          rw [abs_mul, abs_of_pos hscale]
      _ < |cmd| * 1 := by exact mul_lt_mul_of_pos_left hlt1 hcpos
      _ = |cmd| := mul_one _
  · intro h
    exact mul_pos h hscale
  · intro h
    exact mul_neg_of_neg_of_pos h hscale
  · intro v c hvle
    unfold velocityGuard
    rw [if_neg (not_lt.2 (le_trans hvle hsh)),
      if_neg (fun h => absurd h.1 (not_lt.2 hvle))]

/-- C2 witness: the spec example `soft = 60`, `hard = 150`, `|v| = 120`,
`cmd = 50` scales to `50 · 60/120 = 25`. -/
theorem velocityGuard_soft_scaling_witness :
    velocityGuard 120 50 60 150 = some (50 * (60 / |120|)) ∧
    velocityGuard 120 50 60 150 = some 25 := by
  constructor
  · exact (velocityGuard_soft_scaling 120 50 60 150 (by norm_num) (by norm_num)
      (by norm_num) (by norm_num) (by norm_num)).1
  · norm_num [velocityGuard]

/-- The divisor substitution used throughout the source: a non-positive
inter-sample interval is replaced by the nominal sample period before
dividing (`if dt <= 0: dt = SAMPLE_DT`, lines 89-90, 96-97, 103-104,
181-182). -/
def safeDt (dt : ℚ) : ℚ := if dt ≤ 0 then SAMPLE_DT else dt

/-- The control loop's velocity estimate (lines 178-183): difference of the
mean angles over the (safe) elapsed interval. -/
def loopVel (angle lastAngle t lastT : ℚ) : ℚ :=
  (angle - lastAngle) / safeDt (t - lastT)

/-- Velocity series of `compute_smoothness` (lines 87-91): first differences
of position over time, one per adjacent sample pair. -/
def velSeries (ts xs : List ℚ) : List ℚ :=
  (List.range (ts.length - 1)).map fun i =>
    (xs.getD (i + 1) 0 - xs.getD i 0) / safeDt (ts.getD (i + 1) 0 - ts.getD i 0)

/-- Acceleration series (lines 94-98): first differences of the velocity
series; the `k`-th element divides by the interval `ts[k+2] - ts[k+1]`. -/
def accSeries (ts v : List ℚ) : List ℚ :=
  (List.range (v.length - 1)).map fun i =>
    (v.getD (i + 1) 0 - v.getD i 0) / safeDt (ts.getD (i + 2) 0 - ts.getD (i + 1) 0)

/-- Jerk series (lines 101-105): first differences of the acceleration
series; the `k`-th element divides by `ts[k+3] - ts[k+2]` when that index
exists and by `SAMPLE_DT` otherwise. -/
def jerkSeries (ts a : List ℚ) : List ℚ :=
  (List.range (a.length - 1)).map fun i =>
    (a.getD (i + 1) 0 - a.getD i 0) /
      safeDt (if i + 3 < ts.length then ts.getD (i + 3) 0 - ts.getD (i + 2) 0 else SAMPLE_DT)

/-- The analyzer's result record (the dict built at lines 74-80 and 126-132).
`rms_jerk = none` models the `float('nan')` of the degenerate branch. -/
structure Metrics where
  rms_jerk : Option ℝ
  acc_zero_cross : ℕ
  peak_vel : ℚ
  move_time : ℚ
  smoothness_score : ℝ

/-- The smoothness score map (lines 122-124):
`100 / (1 + 15 · (rms_jerk / max(1e-6, peak_vel)))`. -/
noncomputable def scoreOf (rms : ℝ) (peak : ℚ) : ℝ :=
  100 / (1 + 15 * (rms / ((max (1 / 1000000) peak : ℚ) : ℝ)))

/-- Source `compute_smoothness(ts, xs)` (lines 64-132).  Fewer than 5 samples
yields the degenerate metrics; otherwise velocity, acceleration and jerk
series are formed, `rms_jerk` is the root-mean-square of the jerk series
(0 if empty), zero crossings count adjacent opposite-sign acceleration
pairs, `peak_vel` is the largest absolute velocity (0 if empty), and the
score normalizes `rms_jerk` by `max(1e-6, peak_vel)`. -/
noncomputable def compute_smoothness (ts xs : List ℚ) : Metrics :=
  if ts.length < 5 then
    { rms_jerk := none
      acc_zero_cross := 0
      peak_vel := 0
      move_time := if ts = [] then 0 else ts.getLast?.getD 0 - ts.head?.getD 0
      smoothness_score := 0 }
  else
    let v := velSeries ts xs
    let a := accSeries ts v
    let j := jerkSeries ts a
    let rms : ℝ :=
      if j = [] then 0
      else Real.sqrt ((((j.map fun x => x * x).sum / (j.length : ℚ) : ℚ) : ℝ))
    { rms_jerk := some rms
      acc_zero_cross :=
        ((a.zip a.tail).countP fun p =>
          decide ((0 < p.1 ∧ p.2 < 0) ∨ (p.1 < 0 ∧ 0 < p.2)))
      peak_vel := (v.map fun x => |x|).foldr max 0
      move_time := if ts = [] then 0 else ts.getLast?.getD 0 - ts.head?.getD 0
      smoothness_score := scoreOf rms ((v.map fun x => |x|).foldr max 0) }

lemma scoreOf_denom_pos (peak : ℚ) : (0 : ℝ) < ((max (1 / 1000000) peak : ℚ) : ℝ) := by
  have : (0 : ℚ) < max (1 / 1000000) peak :=
    lt_of_lt_of_le (by norm_num) (le_max_left _ _)
  exact_mod_cast this

lemma scoreOf_pos (rms : ℝ) (peak : ℚ) (h : 0 ≤ rms) : 0 < scoreOf rms peak := by
  have hd := scoreOf_denom_pos peak
  have : (0 : ℝ) < 1 + 15 * (rms / ((max (1 / 1000000) peak : ℚ) : ℝ)) := by
    have : 0 ≤ rms / ((max (1 / 1000000) peak : ℚ) : ℝ) := div_nonneg h hd.le
    linarith
  exact div_pos (by norm_num) this

lemma scoreOf_le_100 (rms : ℝ) (peak : ℚ) (h : 0 ≤ rms) : scoreOf rms peak ≤ 100 := by
  have hd := scoreOf_denom_pos peak
  have hge : (1 : ℝ) ≤ 1 + 15 * (rms / ((max (1 / 1000000) peak : ℚ) : ℝ)) := by
    have : 0 ≤ rms / ((max (1 / 1000000) peak : ℚ) : ℝ) := div_nonneg h hd.le
    linarith
  unfold scoreOf
  rw [div_le_iff₀ (by linarith)]
  nlinarith

lemma scoreOf_strictAnti (peak : ℚ) (r1 r2 : ℝ) (h0 : 0 ≤ r1) (h12 : r1 < r2) :
    scoreOf r2 peak < scoreOf r1 peak := by
  have hd := scoreOf_denom_pos peak
  have hdiv : r1 / ((max (1 / 1000000) peak : ℚ) : ℝ) <
      r2 / ((max (1 / 1000000) peak : ℚ) : ℝ) := by
    exact div_lt_div_of_pos_right h12 hd
  have h1pos : (0 : ℝ) < 1 + 15 * (r1 / ((max (1 / 1000000) peak : ℚ) : ℝ)) := by
    have : 0 ≤ r1 / ((max (1 / 1000000) peak : ℚ) : ℝ) := div_nonneg h0 hd.le
    linarith
  exact div_lt_div_of_pos_left (by norm_num) h1pos (by linarith)

/-- C5: for any trajectory with at least 5 samples, the analyzer's score is
exactly `100 / (1 + 15 · (rms_jerk / max(peak_velocity, 1e-6)))`, it lies in
`(0, 100]`, and for a fixed peak velocity the score map is strictly
decreasing in the rms jerk. -/
theorem compute_smoothness_score_formula (ts xs : List ℚ) (h5 : 5 ≤ ts.length) :
    (∃ r : ℝ, (compute_smoothness ts xs).rms_jerk = some r ∧ 0 ≤ r ∧
      (compute_smoothness ts xs).smoothness_score =
        scoreOf r (compute_smoothness ts xs).peak_vel ∧
      (compute_smoothness ts xs).smoothness_score =
        100 / (1 + 15 * (r /
          ((max (1 / 1000000) (compute_smoothness ts xs).peak_vel : ℚ) : ℝ))) ∧
      0 < (compute_smoothness ts xs).smoothness_score ∧
      (compute_smoothness ts xs).smoothness_score ≤ 100) ∧
    (∀ (peak : ℚ) (r1 r2 : ℝ), 0 ≤ r1 → r1 < r2 →
      scoreOf r2 peak < scoreOf r1 peak) := by
  have hnot : ¬ ts.length < 5 := not_lt.2 h5
  set R : ℝ := (if jerkSeries ts (accSeries ts (velSeries ts xs)) = [] then (0 : ℝ)
    else Real.sqrt ((((jerkSeries ts (accSeries ts (velSeries ts xs))).map
      (fun x => x * x)).sum /
        ((jerkSeries ts (accSeries ts (velSeries ts xs))).length : ℚ) : ℚ))) with hR
  have hRnn : 0 ≤ R := by
    rw [hR]
    split
    · exact le_refl 0
    · exact Real.sqrt_nonneg _
  refine ⟨⟨R, ?_, hRnn, ?_, ?_, ?_, ?_⟩, ?_⟩
  · simp only [compute_smoothness, if_neg hnot]
  · simp only [compute_smoothness, if_neg hnot]
  · simp only [compute_smoothness, if_neg hnot, scoreOf]
  · simp only [compute_smoothness, if_neg hnot]
    exact scoreOf_pos _ _ hRnn
  · simp only [compute_smoothness, if_neg hnot]
    exact scoreOf_le_100 _ _ hRnn
  · intro peak r1 r2 h0 h12
    exact scoreOf_strictAnti peak r1 r2 h0 h12

/-- C5 witness: a concrete 5-sample trajectory satisfying the hypothesis of
the score-formula theorem. -/
theorem compute_smoothness_score_formula_witness :
    (5 : ℕ) ≤ ([0, 1/50, 2/50, 3/50, 4/50] : List ℚ).length ∧
    ((∃ r : ℝ, (compute_smoothness [0, 1/50, 2/50, 3/50, 4/50] [0, 1, 2, 3, 4]).rms_jerk = some r ∧
      0 ≤ r ∧
      (compute_smoothness [0, 1/50, 2/50, 3/50, 4/50] [0, 1, 2, 3, 4]).smoothness_score =
        scoreOf r (compute_smoothness [0, 1/50, 2/50, 3/50, 4/50] [0, 1, 2, 3, 4]).peak_vel ∧
      (compute_smoothness [0, 1/50, 2/50, 3/50, 4/50] [0, 1, 2, 3, 4]).smoothness_score =
        100 / (1 + 15 * (r /
          ((max (1 / 1000000)
            (compute_smoothness [0, 1/50, 2/50, 3/50, 4/50] [0, 1, 2, 3, 4]).peak_vel : ℚ) : ℝ))) ∧
      0 < (compute_smoothness [0, 1/50, 2/50, 3/50, 4/50] [0, 1, 2, 3, 4]).smoothness_score ∧
      (compute_smoothness [0, 1/50, 2/50, 3/50, 4/50] [0, 1, 2, 3, 4]).smoothness_score ≤ 100) ∧
    (∀ (peak : ℚ) (r1 r2 : ℝ), 0 ≤ r1 → r1 < r2 →
      scoreOf r2 peak < scoreOf r1 peak)) :=
  ⟨by norm_num,
   compute_smoothness_score_formula [0, 1/50, 2/50, 3/50, 4/50] [0, 1, 2, 3, 4] (by norm_num)⟩

/-- C6: with fewer than 5 samples the analyzer returns the degenerate
metrics: `rms_jerk` is the not-a-number marker, no zero crossings, zero peak
velocity, `move_time` equal to the last minus the first sample time (0 for
an empty trajectory), and score 0. -/
theorem compute_smoothness_degenerate (ts xs : List ℚ) (h : ts.length < 5) :
    compute_smoothness ts xs =
      { rms_jerk := none
        acc_zero_cross := 0
        peak_vel := 0
        move_time := if ts = [] then 0 else ts.getLast?.getD 0 - ts.head?.getD 0
        smoothness_score := 0 } := by
  simp only [compute_smoothness, if_pos h]

/-- C6 witness: a concrete two-sample trajectory hits the degenerate branch,
with `move_time = 1/50 - 0`. -/
theorem compute_smoothness_degenerate_witness :
    ([0, 1/50] : List ℚ).length < 5 ∧
    compute_smoothness [0, 1/50] [3, 4] =
      { rms_jerk := none
        acc_zero_cross := 0
        peak_vel := 0
        move_time := if ([0, 1/50] : List ℚ) = [] then 0
          else ([0, 1/50] : List ℚ).getLast?.getD 0 - ([0, 1/50] : List ℚ).head?.getD 0
        smoothness_score := 0 } :=
  ⟨by norm_num, compute_smoothness_degenerate [0, 1/50] [3, 4] (by norm_num)⟩

/-- C9: every finite-difference computation divides by `safeDt` of the raw
interval: `safeDt` is always positive (so no division by an interval that is
zero or negative ever happens), it substitutes the nominal 0.02 s sample
period exactly when the raw interval is non-positive, and the loop velocity
estimate and the analyzer's velocity, acceleration and jerk series are all
built from such guarded quotients. -/
theorem finite_differences_use_safe_divisor :
    (∀ dt : ℚ, 0 < safeDt dt) ∧
    (∀ dt : ℚ, dt ≤ 0 → safeDt dt = SAMPLE_DT) ∧
    (∀ dt : ℚ, 0 < dt → safeDt dt = dt) ∧
    SAMPLE_DT = 1 / 50 ∧
    (∀ angle lastAngle t lastT : ℚ,
      loopVel angle lastAngle t lastT = (angle - lastAngle) / safeDt (t - lastT)) ∧
    (∀ ts xs : List ℚ, velSeries ts xs = (List.range (ts.length - 1)).map fun i =>
      (xs.getD (i + 1) 0 - xs.getD i 0) / safeDt (ts.getD (i + 1) 0 - ts.getD i 0)) ∧
    (∀ ts v : List ℚ, accSeries ts v = (List.range (v.length - 1)).map fun i =>
      (v.getD (i + 1) 0 - v.getD i 0) / safeDt (ts.getD (i + 2) 0 - ts.getD (i + 1) 0)) ∧
    (∀ ts a : List ℚ, jerkSeries ts a = (List.range (a.length - 1)).map fun i =>
      (a.getD (i + 1) 0 - a.getD i 0) /
        safeDt (if i + 3 < ts.length then ts.getD (i + 3) 0 - ts.getD (i + 2) 0
          else SAMPLE_DT)) := by
  refine ⟨?_, ?_, ?_, rfl, fun _ _ _ _ => rfl, fun _ _ => rfl, fun _ _ => rfl,
    fun _ _ => rfl⟩
  · intro dt
    unfold safeDt
    split
    · norm_num [SAMPLE_DT]
    · linarith [not_le.1 (by assumption : ¬ dt ≤ 0)]
  · intro dt h
    exact if_pos h
  · intro dt h
    exact if_neg (not_le.2 h)

/-- C9 witness: concrete instances — a zero interval is replaced by the
0.02 s period, a positive interval is kept, and the guarded divisor is
positive. -/
theorem finite_differences_use_safe_divisor_witness :
    0 < safeDt 0 ∧ safeDt (-1) = SAMPLE_DT ∧ safeDt (3/100) = 3/100 ∧
    loopVel 5 3 (1/10) 0 = (5 - 3) / safeDt (1/10 - 0) :=
  ⟨finite_differences_use_safe_divisor.1 0,
   finite_differences_use_safe_divisor.2.1 (-1) (by norm_num),
   finite_differences_use_safe_divisor.2.2.1 (3/100) (by norm_num),
   finite_differences_use_safe_divisor.2.2.2.2.1 5 3 (1/10) 0⟩

/-- One loop iteration's environment input in `run_phase`: the relative time
`time.time() - t0` at the top of the iteration and the two encoder readings
returned by `get_motor_encoder` for ports B and C. -/
structure Tick where
  t : ℚ
  aB : ℚ
  aC : ℚ

/-- Accumulated state of the sampling loop of `run_phase` (lines 164-210):
emitted hardware actions, the recorded `ts`/`xb`/`xc` sample buffers, whether
the hard-velocity `RuntimeError` fired, and the last encoder readings seen. -/
structure LoopOut where
  acts : List Act
  ts : List ℚ
  xb : List ℚ
  xc : List ℚ
  faulted : Bool
  lastB : ℚ
  lastC : ℚ

/-- The sampling loop of `run_phase` (lines 164-210), driven by the list of
remaining iteration inputs.  Each iteration breaks once `t_rel > duration`,
otherwise computes the trapezoid command, estimates the mean-angle velocity
against the previous reading, applies the velocity guard (hard fault stops
both actuators and aborts; soft limit scales the command), writes the
command to both actuators and records the sample. -/
def phaseLoop (duty duration ramp vmax vhard : ℚ) :
    List Tick → ℚ → ℚ → ℚ → LoopOut
  | [], lastB, lastC, _ => ⟨[], [], [], [], false, lastB, lastC⟩
  | tk :: rest, lastB, lastC, lastT =>
    if duration < tk.t then ⟨[], [], [], [], false, lastB, lastC⟩
    else
      match velocityGuard
          (loopVel ((tk.aB + tk.aC) / 2) ((lastB + lastC) / 2) tk.t lastT)
          (phased_power_profile tk.t duration ramp duty) vmax vhard with
      | none => ⟨set_both_power 0, [], [], [], true, tk.aB, tk.aC⟩
      | some cmd =>
        let next := phaseLoop duty duration ramp vmax vhard rest tk.aB tk.aC tk.t
        ⟨set_both_power cmd ++ next.acts, tk.t :: next.ts, tk.aB :: next.xb,
         tk.aC :: next.xc, next.faulted, next.lastB, next.lastC⟩

/-- Result of one phase: normal completion carries the two encoder deltas
and the smoothness metrics; `fault` models the propagating hard-velocity
`RuntimeError`. -/
inductive PhaseOutcome where
  | completed (dB dC : ℚ) (m : Metrics)
  | fault

/-- True exactly on the fault outcome. -/
def PhaseOutcome.isFault : PhaseOutcome → Bool
  | .fault => true
  | _ => false

/-- Source `run_phase` (lines 135-239): sanitizes duty and ramp, runs the
sampling loop from the initial encoder readings, and on normal exit stops
both actuators, optionally applies the endpoint hold, and computes the
smoothness metrics of the mean-of-encoders trajectory.  On a hard-velocity
fault the zero-write already emitted by the loop is the last action and the
`RuntimeError` propagates (no metrics). -/
noncomputable def run_phase (duty0 duration ramp0 hold_power hold_time vmax vhard
    e0B e0C : ℚ) (ticks : List Tick) : List Act × PhaseOutcome :=
  let duty : ℚ := (pyInt (clamp duty0 (-100) 100) : ℚ)
  let r := phaseLoop duty duration (clamp ramp0 0 (duration / 2)) vmax vhard ticks e0B e0C 0
  if r.faulted then (r.acts, PhaseOutcome.fault)
  else
    (r.acts ++ set_both_power 0 ++
      (if 0 < hold_time ∧ hold_power ≠ 0 then
        set_both_power ((pyInt (clamp (if 0 ≤ duty then hold_power else -hold_power)
          (-100) 100) : ℚ)) ++ set_both_power 0
      else []),
     PhaseOutcome.completed (r.lastB - e0B) (r.lastC - e0C)
       (compute_smoothness r.ts ((r.xb.zip r.xc).map fun p => (p.1 + p.2) * (1 / 2))))

/-- A list of actions is a sequence of equal-valued B/C power-write pairs
whose written duty always lies in the hardware range `[-100, 100]`. -/
def pairedWrites (l : List Act) : Prop :=
  ∃ vs : List ℤ,
    l = vs.flatMap (fun v => [Act.setPower Port.B v, Act.setPower Port.C v]) ∧
    ∀ v ∈ vs, -100 ≤ v ∧ v ≤ 100

lemma pyInt_clamp_bounds (p : ℚ) :
    -100 ≤ pyInt (clamp p (-100) 100) ∧ pyInt (clamp p (-100) 100) ≤ 100 := by
  have hlo : (-100 : ℚ) ≤ clamp p (-100) 100 := clamp_lo_le _ _ _
  have hhi : clamp p (-100) 100 ≤ 100 := clamp_le_hi _ _ _ (by norm_num)
  have h100 : ((100 : ℤ) : ℚ) = (100 : ℚ) := by norm_num
  have hm100 : ((-100 : ℤ) : ℚ) = (-100 : ℚ) := by norm_num
  unfold pyInt
  split
  · constructor
    · exact Int.le_floor.2 (by push_cast; linarith)
    · calc ⌊clamp p (-100) 100⌋ ≤ ⌊(100 : ℚ)⌋ := Int.floor_le_floor hhi
        _ = 100 := by rw [← h100, Int.floor_intCast]
  · constructor
    · calc (-100 : ℤ) = ⌈((-100 : ℤ) : ℚ)⌉ := (Int.ceil_intCast _).symm
        _ ≤ ⌈clamp p (-100) 100⌉ := Int.ceil_le_ceil (by rw [hm100]; exact hlo)
    · have hle : clamp p (-100) 100 ≤ 0 := le_of_not_le (by assumption)
      calc ⌈clamp p (-100) 100⌉ ≤ ⌈(0 : ℚ)⌉ := Int.ceil_le_ceil hle
        _ ≤ 100 := by rw [Int.ceil_zero]; norm_num

lemma set_both_power_paired (p : ℚ) : pairedWrites (set_both_power p) := by
  refine ⟨[pyInt (clamp p (-100) 100)], ?_, ?_⟩
  · rfl
  · intro v hv
    simp only [List.mem_singleton] at hv
    subst hv
    exact pyInt_clamp_bounds p

lemma pairedWrites_nil : pairedWrites [] := ⟨[], rfl, by intro v hv; cases hv⟩

lemma pairedWrites_append {l1 l2 : List Act} (h1 : pairedWrites l1)
    (h2 : pairedWrites l2) : pairedWrites (l1 ++ l2) := by
  obtain ⟨vs1, he1, hb1⟩ := h1
  obtain ⟨vs2, he2, hb2⟩ := h2
  refine ⟨vs1 ++ vs2, ?_, ?_⟩
  · rw [he1, he2, List.flatMap_append]
  · intro v hv
    rcases List.mem_append.1 hv with h | h
    · exact hb1 v h
    · exact hb2 v h

lemma phaseLoop_acts_paired (duty duration ramp vmax vhard : ℚ) :
    ∀ (ticks : List Tick) (lastB lastC lastT : ℚ),
      pairedWrites (phaseLoop duty duration ramp vmax vhard ticks lastB lastC lastT).acts := by
  intro ticks
  induction ticks with
  | nil => intro lastB lastC lastT; exact pairedWrites_nil
  | cons tk rest ih =>
    intro lastB lastC lastT
    rw [phaseLoop]
    split
    · exact pairedWrites_nil
    · split
      · exact set_both_power_paired 0
      · exact pairedWrites_append (set_both_power_paired _) (ih tk.aB tk.aC tk.t)

/-- C10: `set_both_power p` writes the single integer value
`int(clamp(p, −100, 100))`, which always lies in `[-100, 100]`, identically
to ports B and C; consequently every action stream emitted by the `run_phase`
control loop is a sequence of equal-valued B/C write pairs with duty inside
the hardware range. -/
theorem set_both_power_clamped_identical :
    (∀ p : ℚ,
      set_both_power p =
        [Act.setPower Port.B (pyInt (clamp p (-100) 100)),
         Act.setPower Port.C (pyInt (clamp p (-100) 100))] ∧
      -100 ≤ pyInt (clamp p (-100) 100) ∧ pyInt (clamp p (-100) 100) ≤ 100) ∧
    (∀ (duty0 duration ramp0 hold_power hold_time vmax vhard e0B e0C : ℚ)
      (ticks : List Tick),
      pairedWrites
        (run_phase duty0 duration ramp0 hold_power hold_time vmax vhard e0B e0C ticks).1) := by
  constructor
  · intro p
    exact ⟨rfl, pyInt_clamp_bounds p⟩
  · intro duty0 duration ramp0 hold_power hold_time vmax vhard e0B e0C ticks
    rw [run_phase]
    split
    · exact phaseLoop_acts_paired _ _ _ _ _ _ _ _ _
    · refine pairedWrites_append (pairedWrites_append
        (phaseLoop_acts_paired _ _ _ _ _ _ _ _ _) (set_both_power_paired 0)) ?_
      split
      · exact pairedWrites_append (set_both_power_paired _) (set_both_power_paired 0)
      · exact pairedWrites_nil

/-- Modelled from the spec: the repository's position-mode profile generator
(ProfileGenerator, §4.1 position mode) is not among the source files under
src/ — only the power-mode trapezoid and the settling-based strategies are.
Following the spec's words: desired angle is
`start + (target - start) · s(elapsed)` with
`s(t) = 0.5 − 0.5·cos(π·t/duration)`, and `t` clamped to `[0, duration]`
outside that range. -/
noncomputable def positionProfile (start target duration t : ℝ) : ℝ :=
  start + (target - start) *
    (1 / 2 - 1 / 2 * Real.cos (Real.pi * (max 0 (min duration t)) / duration))

lemma positionProfile_in_range (start target duration t : ℝ) (h0 : 0 ≤ t)
    (h1 : t ≤ duration) :
    positionProfile start target duration t =
      start + (target - start) * (1 / 2 - 1 / 2 * Real.cos (Real.pi * t / duration)) := by
  unfold positionProfile
  rw [min_eq_right h1, max_eq_right h0]

lemma cos_scaled_strict_anti (duration t1 t2 : ℝ) (hd : 0 < duration)
    (h0 : 0 ≤ t1) (h12 : t1 < t2) (h2 : t2 ≤ duration) :
    Real.cos (Real.pi * t2 / duration) < Real.cos (Real.pi * t1 / duration) := by
  have hpi := Real.pi_pos
  have hm1 : Real.pi * t1 / duration ∈ Set.Icc 0 Real.pi := by
    constructor
    · positivity
    · rw [div_le_iff₀ hd]
      nlinarith
  have h02 : 0 ≤ t2 := le_trans h0 h12.le
  have hm2 : Real.pi * t2 / duration ∈ Set.Icc 0 Real.pi := by
    constructor
    · positivity
    · rw [div_le_iff₀ hd]
      nlinarith
  apply Real.strictAntiOn_cos hm1 hm2
  rw [div_lt_div_iff_of_pos_right hd]
  nlinarith

/-- C4 (spec-modelled): on `[0, duration]` the position-mode profile equals
`start + (target − start)·(0.5 − 0.5·cos(π·t/duration))`; it starts at
`start`, ends at `target`, and is strictly monotic from `start` toward
`target` whenever they differ (increasing when `target > start`, decreasing
when `target < start`). -/
theorem positionProfile_cosine_ease (start target duration : ℝ) (hd : 0 < duration) :
    (∀ t, 0 ≤ t → t ≤ duration →
      positionProfile start target duration t =
        start + (target - start) * (1 / 2 - 1 / 2 * Real.cos (Real.pi * t / duration))) ∧
    positionProfile start target duration 0 = start ∧
    positionProfile start target duration duration = target ∧
    (∀ t1 t2, 0 ≤ t1 → t1 < t2 → t2 ≤ duration → start < target →
      positionProfile start target duration t1 < positionProfile start target duration t2) ∧
    (∀ t1 t2, 0 ≤ t1 → t1 < t2 → t2 ≤ duration → target < start →
      positionProfile start target duration t2 < positionProfile start target duration t1) := by
  refine ⟨fun t h0 h1 => positionProfile_in_range start target duration t h0 h1, ?_, ?_, ?_, ?_⟩
  · rw [positionProfile_in_range start target duration 0 le_rfl hd.le]
    simp [mul_zero, zero_div, Real.cos_zero]
  · rw [positionProfile_in_range start target duration duration hd.le le_rfl]
    rw [mul_div_assoc, div_self hd.ne', mul_one, Real.cos_pi]
    ring
  · intro t1 t2 h0 h12 h2 hst
    rw [positionProfile_in_range start target duration t1 h0 (le_trans h12.le h2),
      positionProfile_in_range start target duration t2 (le_trans h0 h12.le) h2]
    have hcos := cos_scaled_strict_anti duration t1 t2 hd h0 h12 h2
    nlinarith
  · intro t1 t2 h0 h12 h2 hts
    rw [positionProfile_in_range start target duration t1 h0 (le_trans h12.le h2),
      positionProfile_in_range start target duration t2 (le_trans h0 h12.le) h2]
    have hcos := cos_scaled_strict_anti duration t1 t2 hd h0 h12 h2
    nlinarith

/-- C4 witness: the spec example `start = 0`, `target = 90`, `duration = 2 s`
gives `profile(1 s) = 45`, the arithmetic midpoint, and the endpoint facts
hold at these values. -/
theorem positionProfile_cosine_ease_witness :
    positionProfile 0 90 2 0 = 0 ∧ positionProfile 0 90 2 2 = 90 ∧
    positionProfile 0 90 2 1 = 45 := by
  refine ⟨(positionProfile_cosine_ease 0 90 2 (by norm_num)).2.1,
    (positionProfile_cosine_ease 0 90 2 (by norm_num)).2.2.1, ?_⟩
  have h := (positionProfile_cosine_ease 0 90 2 (by norm_num)).1 1 (by norm_num) (by norm_num)
  rw [h, show Real.pi * 1 / 2 = Real.pi / 2 by ring, Real.cos_pi_div_two]
  norm_num

/-- Session-level events in the order `main` produces them: a phase
execution (EXTEND or FLEX), a mid-phase rest, or an inter-repetition rest. -/
inductive SessEvent where
  | extendPhase
  | flexPhase
  | midRest
  | interRest
deriving DecidableEq, Repr

/-- Environment of one phase execution inside `main`: the encoder readings
at phase start and the loop iteration inputs. -/
structure PhaseInput where
  e0B : ℚ
  e0C : ℚ
  ticks : List Tick

/-- The sanitized session configuration computed by `main` from its
arguments (lines 304-319 of `test_exo_movements.py`). -/
structure Cfg where
  duty : ℚ
  sflex : ℚ
  sext : ℚ
  tflex : ℚ
  textend : ℚ
  reps : ℕ
  rest : ℚ
  midrest : ℚ
  ramp : ℚ
  hold_power : ℚ
  hold_time : ℚ
  vmax : ℚ
  vhard : ℚ

/-- Argument sanitization of `main` (lines 304-319): duty magnitude clamped
to `[0, 100]`, durations at least 0.1 s, at least one repetition, rests
non-negative, ramp in `[0, 2.5]`, hold power magnitude in `[0, 100]`, and
the flex/extend sign convention `(+1, −1)` swapped by `--invert`. -/
def mainCfg (power tflex0 textend0 : ℚ) (reps0 : ℕ)
    (rest0 midrest0 ramp0 hold_power0 hold_time0 vmax vhard : ℚ)
    (invert : Bool) : Cfg :=
  { duty := (pyInt (clamp |power| 0 100) : ℚ)
    sflex := if invert then -1 else 1
    sext := if invert then 1 else -1
    tflex := max (1/10) tflex0
    textend := max (1/10) textend0
    reps := max 1 reps0
    rest := max 0 rest0
    midrest := max 0 midrest0
    ramp := max 0 (min (5/2) ramp0)
    hold_power := (pyInt (clamp |hold_power0| 0 100) : ℚ)
    hold_time := max 0 hold_time0
    vmax := vmax
    vhard := vhard }

/-- The EXTEND call of `main`'s loop (lines 341-351): duty `s_ext · duty`,
duration `textend`. -/
noncomputable def extendPhaseRun (c : Cfg) (inp : PhaseInput) : List Act × PhaseOutcome :=
  run_phase (c.sext * c.duty) c.textend c.ramp c.hold_power c.hold_time
    c.vmax c.vhard inp.e0B inp.e0C inp.ticks

/-- The FLEX call of `main`'s loop (lines 360-370): duty `s_flex · duty`,
duration `tflex`. -/
noncomputable def flexPhaseRun (c : Cfg) (inp : PhaseInput) : List Act × PhaseOutcome :=
  run_phase (c.sflex * c.duty) c.tflex c.ramp c.hold_power c.hold_time
    c.vmax c.vhard inp.e0B inp.e0C inp.ticks

/-- The mid-phase rest of a repetition (lines 355-357): taken only when
`midrest > 0`. -/
def midEvents (c : Cfg) : List SessEvent :=
  if 0 < c.midrest then [SessEvent.midRest] else []

/-- The inter-repetition rest after repetition `i` (lines 374-376): taken
only when `i < reps` and `rest > 0`. -/
def restEvents (c : Cfg) (i : ℕ) : List SessEvent :=
  if i < c.reps ∧ 0 < c.rest then [SessEvent.interRest] else []

/-- The smoothness score extracted from a phase result; 0 for a faulted
phase (whose score is never read by `main`). -/
noncomputable def phaseScore (r : List Act × PhaseOutcome) : ℝ :=
  match r.2 with
  | .completed _ _ m => m.smoothness_score
  | .fault => 0

/-- Accumulated result of `main`'s repetition loop. -/
structure SessionOut where
  acts : List Act
  events : List SessEvent
  scores : List ℝ
  faulted : Bool

/-- The repetition loop of `main` (lines 337-376) with `n` iterations left
and 1-based current repetition index `i`: EXTEND, mid-rest, FLEX and
inter-repetition rest in order, appending each completed phase's smoothness
score (`phaseScore` reads the metrics of a completed phase); a
`RuntimeError` from either phase ends the loop at once with the events and
scores gathered so far. -/
noncomputable def runReps (c : Cfg) (inputs : ℕ → PhaseInput × PhaseInput) :
    ℕ → ℕ → SessionOut
  | 0, _ => ⟨[], [], [], false⟩
  | n + 1, i =>
    if (extendPhaseRun c (inputs i).1).2.isFault then
      ⟨(extendPhaseRun c (inputs i).1).1, [SessEvent.extendPhase], [], true⟩
    else if (flexPhaseRun c (inputs i).2).2.isFault then
      ⟨(extendPhaseRun c (inputs i).1).1 ++ (flexPhaseRun c (inputs i).2).1,
       SessEvent.extendPhase :: (midEvents c ++ [SessEvent.flexPhase]),
       [phaseScore (extendPhaseRun c (inputs i).1)], true⟩
    else
      ⟨(extendPhaseRun c (inputs i).1).1 ++ (flexPhaseRun c (inputs i).2).1 ++
         (runReps c inputs n (i + 1)).acts,
       SessEvent.extendPhase :: (midEvents c ++ [SessEvent.flexPhase] ++
         restEvents c i ++ (runReps c inputs n (i + 1)).events),
       phaseScore (extendPhaseRun c (inputs i).1) ::
         phaseScore (flexPhaseRun c (inputs i).2) ::
         (runReps c inputs n (i + 1)).scores,
       (runReps c inputs n (i + 1)).faulted⟩

/-- Result of one whole `main` run. -/
structure MainOut where
  acts : List Act
  events : List SessEvent
  scores : List ℝ
  avg : Option ℝ
  faulted : Bool

/-- Source `main` (lines 242-389): sanitizes arguments, zeroes the motors,
runs the repetition loop, prints the mean score only when the loop finished
without a fault and produced scores, and in the `finally` block always
writes zero power to both motors and calls `reset_all()`. -/
noncomputable def main (power tflex0 textend0 : ℚ) (reps0 : ℕ)
    (rest0 midrest0 ramp0 hold_power0 hold_time0 vmax vhard : ℚ)
    (invert : Bool) (inputs : ℕ → PhaseInput × PhaseInput) : MainOut :=
  let c := mainCfg power tflex0 textend0 reps0 rest0 midrest0 ramp0
    hold_power0 hold_time0 vmax vhard invert
  let out := runReps c inputs c.reps 1
  { acts := set_both_power 0 ++ out.acts ++ (set_both_power 0 ++ [Act.resetAll])
    events := out.events
    scores := out.scores
    avg := if out.faulted = false ∧ out.scores ≠ [] then
        some (out.scores.sum / (out.scores.length : ℝ))
      else none
    faulted := out.faulted }

lemma range_flatMap_succ {α : Type} (n : ℕ) (f : ℕ → List α) :
    (List.range (n + 1)).flatMap f = f 0 ++ (List.range n).flatMap (fun t => f (t + 1)) := by
  induction n with
  | zero => rfl
  | succ m ih =>
    rw [List.range_succ, List.flatMap_append, ih, List.range_succ,
      List.flatMap_append]
    simp [List.append_assoc]

lemma flatMap_congr_mem {α β : Type} {l : List α} {f g : α → List β}
    (h : ∀ a ∈ l, f a = g a) : l.flatMap f = l.flatMap g := by
  induction l with
  | nil => rfl
  | cons x xs ih =>
    rw [List.flatMap_cons, List.flatMap_cons, h x (List.mem_cons_self x xs),
      ih fun a ha => h a (List.mem_cons_of_mem x ha)]

lemma count_flatMap_const {β : Type} [DecidableEq β] (m : ℕ) (L : List β) (a : β) :
    (((List.range m).flatMap fun _ => L).count a) = m * L.count a := by
  induction m with
  | zero => simp
  | succ k ih =>
    rw [List.range_succ, List.flatMap_append, List.count_append, ih]
    simp [Nat.succ_mul]

lemma flatMap_const_length {α β : Type} (l : List α) (f : α → List β) (k : ℕ)
    (h : ∀ a ∈ l, (f a).length = k) : (l.flatMap f).length = l.length * k := by
  induction l with
  | nil => simp
  | cons x xs ih =>
    rw [List.flatMap_cons, List.length_append, h x (List.mem_cons_self x xs),
      ih fun a ha => h a (List.mem_cons_of_mem x ha), List.length_cons]
    ring

lemma runReps_noFault (c : Cfg) (inputs : ℕ → PhaseInput × PhaseInput) :
    ∀ n i, (runReps c inputs n i).faulted = false →
      (runReps c inputs n i).acts = (List.range n).flatMap
        (fun t => (extendPhaseRun c (inputs (i + t)).1).1 ++
          (flexPhaseRun c (inputs (i + t)).2).1) ∧
      (runReps c inputs n i).events = (List.range n).flatMap
        (fun t => SessEvent.extendPhase ::
          (midEvents c ++ [SessEvent.flexPhase] ++ restEvents c (i + t))) ∧
      (runReps c inputs n i).scores = (List.range n).flatMap
        (fun t => [phaseScore (extendPhaseRun c (inputs (i + t)).1),
          phaseScore (flexPhaseRun c (inputs (i + t)).2)]) := by
  intro n
  induction n with
  | zero =>
    intro i _
    refine ⟨rfl, rfl, rfl⟩
  | succ m ih =>
    intro i h
    by_cases hE : (extendPhaseRun c (inputs i).1).2.isFault
    · rw [runReps, if_pos hE] at h
      exact absurd h (by simp)
    · by_cases hF : (flexPhaseRun c (inputs i).2).2.isFault
      · rw [runReps, if_neg hE, if_pos hF] at h
        exact absurd h (by simp)
      · rw [runReps, if_neg hE, if_neg hF] at h ⊢
        obtain ⟨ha, he, hs⟩ := ih (i + 1) h
        have hshift : ∀ t : ℕ, i + (t + 1) = i + 1 + t := fun t => by omega
        have hcgA : (List.range m).flatMap (fun t =>
            (extendPhaseRun c (inputs (i + (t + 1))).1).1 ++
              (flexPhaseRun c (inputs (i + (t + 1))).2).1) =
            (List.range m).flatMap (fun t =>
            (extendPhaseRun c (inputs (i + 1 + t)).1).1 ++
              (flexPhaseRun c (inputs (i + 1 + t)).2).1) :=
          flatMap_congr_mem fun t _ => by rw [hshift t]
        have hcgE : (List.range m).flatMap (fun t =>
            SessEvent.extendPhase :: (midEvents c ++ [SessEvent.flexPhase] ++
              restEvents c (i + (t + 1)))) =
            (List.range m).flatMap (fun t =>
            SessEvent.extendPhase :: (midEvents c ++ [SessEvent.flexPhase] ++
              restEvents c (i + 1 + t))) :=
          flatMap_congr_mem fun t _ => by rw [hshift t]
        have hcgS : (List.range m).flatMap (fun t =>
            [phaseScore (extendPhaseRun c (inputs (i + (t + 1))).1),
             phaseScore (flexPhaseRun c (inputs (i + (t + 1))).2)]) =
            (List.range m).flatMap (fun t =>
            [phaseScore (extendPhaseRun c (inputs (i + 1 + t)).1),
             phaseScore (flexPhaseRun c (inputs (i + 1 + t)).2)]) :=
          flatMap_congr_mem fun t _ => by rw [hshift t]
        refine ⟨?_, ?_, ?_⟩
        · rw [range_flatMap_succ]
          dsimp only [Nat.add_zero]
          rw [ha, hcgA, List.append_assoc]
        · rw [range_flatMap_succ]
          dsimp only [Nat.add_zero]
          rw [he, hcgE, List.cons_append, List.append_assoc, List.append_assoc]
        · rw [range_flatMap_succ]
          dsimp only [Nat.add_zero]
          rw [hs, hcgS]
          rfl

lemma restEvents_of_lt (c : Cfg) (i : ℕ) (h : i < c.reps) :
    restEvents c i = if 0 < c.rest then [SessEvent.interRest] else [] := by
  unfold restEvents
  by_cases hr : 0 < c.rest
  · rw [if_pos ⟨h, hr⟩, if_pos hr]
  · rw [if_neg (fun hh => hr hh.2), if_neg hr]

lemma restEvents_last (c : Cfg) : restEvents c c.reps = [] := by
  unfold restEvents
  rw [if_neg (fun hh => absurd hh.1 (lt_irrefl _))]

/-- C7: an uncancelled, fault-free session with `reps ≥ 1` repetitions runs
exactly `2·reps` phases ordered EXTEND-then-FLEX in every repetition, takes
the mid-phase rest in each repetition exactly when `midrest > 0` (`reps`
mid-rests) and the inter-repetition rest after every repetition but the last
exactly when `rest > 0` (`reps − 1` rests), collects one smoothness score
per phase in order, and reports the arithmetic mean of those `2·reps`
scores. -/
theorem session_runs_all_phases
    (power tflex0 textend0 : ℚ) (reps0 : ℕ)
    (rest0 midrest0 ramp0 hold_power0 hold_time0 vmax vhard : ℚ) (invert : Bool)
    (inputs : ℕ → PhaseInput × PhaseInput) (c : Cfg)
    (hc : c = mainCfg power tflex0 textend0 reps0 rest0 midrest0 ramp0
      hold_power0 hold_time0 vmax vhard invert)
    (hreps : 1 ≤ reps0)
    (hok : (main power tflex0 textend0 reps0 rest0 midrest0 ramp0 hold_power0
      hold_time0 vmax vhard invert inputs).faulted = false) :
    (main power tflex0 textend0 reps0 rest0 midrest0 ramp0 hold_power0
        hold_time0 vmax vhard invert inputs).events =
      ((List.range (reps0 - 1)).flatMap fun _ =>
        SessEvent.extendPhase :: (midEvents c ++ [SessEvent.flexPhase] ++
          (if 0 < c.rest then [SessEvent.interRest] else []))) ++
      (SessEvent.extendPhase :: (midEvents c ++ [SessEvent.flexPhase])) ∧
    (main power tflex0 textend0 reps0 rest0 midrest0 ramp0 hold_power0
        hold_time0 vmax vhard invert inputs).events.count SessEvent.extendPhase = reps0 ∧
    (main power tflex0 textend0 reps0 rest0 midrest0 ramp0 hold_power0
        hold_time0 vmax vhard invert inputs).events.count SessEvent.flexPhase = reps0 ∧
    (main power tflex0 textend0 reps0 rest0 midrest0 ramp0 hold_power0
        hold_time0 vmax vhard invert inputs).events.count SessEvent.midRest =
      (if 0 < c.midrest then reps0 else 0) ∧
    (main power tflex0 textend0 reps0 rest0 midrest0 ramp0 hold_power0
        hold_time0 vmax vhard invert inputs).events.count SessEvent.interRest =
      (if 0 < c.rest then reps0 - 1 else 0) ∧
    (main power tflex0 textend0 reps0 rest0 midrest0 ramp0 hold_power0
        hold_time0 vmax vhard invert inputs).scores =
      ((List.range reps0).flatMap fun t =>
        [phaseScore (extendPhaseRun c (inputs (1 + t)).1),
         phaseScore (flexPhaseRun c (inputs (1 + t)).2)]) ∧
    (main power tflex0 textend0 reps0 rest0 midrest0 ramp0 hold_power0
        hold_time0 vmax vhard invert inputs).scores.length = 2 * reps0 ∧
    (main power tflex0 textend0 reps0 rest0 midrest0 ramp0 hold_power0
        hold_time0 vmax vhard invert inputs).avg =
      some ((main power tflex0 textend0 reps0 rest0 midrest0 ramp0 hold_power0
        hold_time0 vmax vhard invert inputs).scores.sum / ((2 * reps0 : ℕ) : ℝ)) := by
  have hcreps : c.reps = reps0 := by
    rw [hc]
    simp only [mainCfg]
    omega
  have hmr : (mainCfg power tflex0 textend0 reps0 rest0 midrest0 ramp0
      hold_power0 hold_time0 vmax vhard invert).reps = reps0 := by
    simp only [mainCfg]
    omega
  have hfa : (main power tflex0 textend0 reps0 rest0 midrest0 ramp0 hold_power0
      hold_time0 vmax vhard invert inputs).faulted =
      (runReps (mainCfg power tflex0 textend0 reps0 rest0 midrest0 ramp0
        hold_power0 hold_time0 vmax vhard invert) inputs
        (mainCfg power tflex0 textend0 reps0 rest0 midrest0 ramp0
          hold_power0 hold_time0 vmax vhard invert).reps 1).faulted := rfl
  rw [hmr, ← hc] at hfa
  rw [hfa] at hok
  obtain ⟨ha, he, hs⟩ := runReps_noFault c inputs reps0 1 hok
  have hev : (main power tflex0 textend0 reps0 rest0 midrest0 ramp0 hold_power0
      hold_time0 vmax vhard invert inputs).events =
      (runReps (mainCfg power tflex0 textend0 reps0 rest0 midrest0 ramp0
        hold_power0 hold_time0 vmax vhard invert) inputs
        (mainCfg power tflex0 textend0 reps0 rest0 midrest0 ramp0
          hold_power0 hold_time0 vmax vhard invert).reps 1).events := rfl
  rw [hmr, ← hc] at hev
  have hsc : (main power tflex0 textend0 reps0 rest0 midrest0 ramp0 hold_power0
      hold_time0 vmax vhard invert inputs).scores =
      (runReps (mainCfg power tflex0 textend0 reps0 rest0 midrest0 ramp0
        hold_power0 hold_time0 vmax vhard invert) inputs
        (mainCfg power tflex0 textend0 reps0 rest0 midrest0 ramp0
          hold_power0 hold_time0 vmax vhard invert).reps 1).scores := rfl
  rw [hmr, ← hc] at hsc
  obtain ⟨k, hk⟩ : ∃ k, reps0 = k + 1 := ⟨reps0 - 1, by omega⟩
  have hk1 : reps0 - 1 = k := by omega
  have heventsSplit : (runReps c inputs reps0 1).events =
      ((List.range k).flatMap fun _ =>
        SessEvent.extendPhase :: (midEvents c ++ [SessEvent.flexPhase] ++
          (if 0 < c.rest then [SessEvent.interRest] else []))) ++
      (SessEvent.extendPhase :: (midEvents c ++ [SessEvent.flexPhase])) := by
    rw [he]
    rw [show List.range reps0 = List.range k ++ [k] by rw [hk, List.range_succ],
      List.flatMap_append, List.flatMap_cons, List.flatMap_nil, List.append_nil]
    have hlastRest : restEvents c (1 + k) = [] := by
      have : 1 + k = c.reps := by omega
      rw [this, restEvents_last]
    rw [hlastRest, List.append_nil]
    congr 1
    refine flatMap_congr_mem fun t ht => ?_
    have htk : t < k := List.mem_range.1 ht
    rw [restEvents_of_lt c (1 + t) (by omega)]
  have hscores : (runReps c inputs reps0 1).scores =
      ((List.range reps0).flatMap fun t =>
        [phaseScore (extendPhaseRun c (inputs (1 + t)).1),
         phaseScore (flexPhaseRun c (inputs (1 + t)).2)]) := hs
  have hlen : (runReps c inputs reps0 1).scores.length = 2 * reps0 := by
    rw [hscores, flatMap_const_length (List.range reps0)
      (fun t => [phaseScore (extendPhaseRun c (inputs (1 + t)).1),
        phaseScore (flexPhaseRun c (inputs (1 + t)).2)]) 2 (fun a _ => rfl),
      List.length_range]
    ring
  have hbF_ext : (SessEvent.extendPhase :: (midEvents c ++ [SessEvent.flexPhase] ++
      (if 0 < c.rest then [SessEvent.interRest] else []))).count SessEvent.extendPhase = 1 := by
    by_cases hm : 0 < c.midrest <;> by_cases hr0 : 0 < c.rest <;>
      simp [midEvents, hm, hr0]
  have hbL_ext : (SessEvent.extendPhase ::
      (midEvents c ++ [SessEvent.flexPhase])).count SessEvent.extendPhase = 1 := by
    by_cases hm : 0 < c.midrest <;> simp [midEvents, hm]
  have hbF_flex : (SessEvent.extendPhase :: (midEvents c ++ [SessEvent.flexPhase] ++
      (if 0 < c.rest then [SessEvent.interRest] else []))).count SessEvent.flexPhase = 1 := by
    by_cases hm : 0 < c.midrest <;> by_cases hr0 : 0 < c.rest <;>
      simp [midEvents, hm, hr0]
  have hbL_flex : (SessEvent.extendPhase ::
      (midEvents c ++ [SessEvent.flexPhase])).count SessEvent.flexPhase = 1 := by
    by_cases hm : 0 < c.midrest <;> simp [midEvents, hm]
  have hbF_mid : (SessEvent.extendPhase :: (midEvents c ++ [SessEvent.flexPhase] ++
      (if 0 < c.rest then [SessEvent.interRest] else []))).count SessEvent.midRest =
      (if 0 < c.midrest then 1 else 0) := by
    by_cases hm : 0 < c.midrest <;> by_cases hr0 : 0 < c.rest <;>
      simp [midEvents, hm, hr0]
  have hbL_mid : (SessEvent.extendPhase ::
      (midEvents c ++ [SessEvent.flexPhase])).count SessEvent.midRest =
      (if 0 < c.midrest then 1 else 0) := by
    by_cases hm : 0 < c.midrest <;> simp [midEvents, hm]
  have hbF_inter : (SessEvent.extendPhase :: (midEvents c ++ [SessEvent.flexPhase] ++
      (if 0 < c.rest then [SessEvent.interRest] else []))).count SessEvent.interRest =
      (if 0 < c.rest then 1 else 0) := by
    by_cases hm : 0 < c.midrest <;> by_cases hr0 : 0 < c.rest <;>
      simp [midEvents, hm, hr0]
  have hbL_inter : (SessEvent.extendPhase ::
      (midEvents c ++ [SessEvent.flexPhase])).count SessEvent.interRest = 0 := by
    by_cases hm : 0 < c.midrest <;> simp [midEvents, hm]
  refine ⟨?_, ?_, ?_, ?_, ?_, ?_, ?_, ?_⟩
  · rw [hev, heventsSplit, hk1]
  · rw [hev, heventsSplit, List.count_append, count_flatMap_const, hbF_ext, hbL_ext]
    omega
  · rw [hev, heventsSplit, List.count_append, count_flatMap_const, hbF_flex, hbL_flex]
    omega
  · rw [hev, heventsSplit, List.count_append, count_flatMap_const, hbF_mid, hbL_mid]
    by_cases hm : 0 < c.midrest <;> simp [hm] <;> omega
  · rw [hev, heventsSplit, List.count_append, count_flatMap_const, hbF_inter, hbL_inter]
    by_cases hr0 : 0 < c.rest <;> simp [hr0] <;> omega
  · rw [hsc, hscores]
  · rw [hsc, hlen]
  · have hnonempty : (runReps c inputs reps0 1).scores ≠ [] := by
      intro hnil
      rw [hnil] at hlen
      simp at hlen
      omega
    have hav : (main power tflex0 textend0 reps0 rest0 midrest0 ramp0 hold_power0
        hold_time0 vmax vhard invert inputs).avg =
        (if (runReps (mainCfg power tflex0 textend0 reps0 rest0 midrest0 ramp0
              hold_power0 hold_time0 vmax vhard invert) inputs
            (mainCfg power tflex0 textend0 reps0 rest0 midrest0 ramp0
              hold_power0 hold_time0 vmax vhard invert).reps 1).faulted = false ∧
            (runReps (mainCfg power tflex0 textend0 reps0 rest0 midrest0 ramp0
              hold_power0 hold_time0 vmax vhard invert) inputs
            (mainCfg power tflex0 textend0 reps0 rest0 midrest0 ramp0
              hold_power0 hold_time0 vmax vhard invert).reps 1).scores ≠ [] then
          some ((runReps (mainCfg power tflex0 textend0 reps0 rest0 midrest0 ramp0
              hold_power0 hold_time0 vmax vhard invert) inputs
            (mainCfg power tflex0 textend0 reps0 rest0 midrest0 ramp0
              hold_power0 hold_time0 vmax vhard invert).reps 1).scores.sum /
            ((runReps (mainCfg power tflex0 textend0 reps0 rest0 midrest0 ramp0
              hold_power0 hold_time0 vmax vhard invert) inputs
            (mainCfg power tflex0 textend0 reps0 rest0 midrest0 ramp0
              hold_power0 hold_time0 vmax vhard invert).reps 1).scores.length : ℝ))
        else none) := rfl
    rw [hmr, ← hc] at hav
    rw [hav, if_pos ⟨hok, hnonempty⟩, hsc, hlen]

/-- An environment with no loop iterations: the phase loop exits at once and
the phase completes with empty sample buffers. -/
def trivialPhaseInput : PhaseInput := ⟨0, 0, []⟩

/-- C7 witness: a concrete one-repetition fault-free session; the session
structure theorem applies with its hypotheses discharged, here instantiated
at the score-count conclusion `2·1` and the extend-phase count. -/
theorem session_runs_all_phases_witness :
    (main 40 2 2 1 1 (1/2) (4/5) 0 0 60 150 false
      (fun _ => (trivialPhaseInput, trivialPhaseInput))).scores.length = 2 * 1 ∧
    (main 40 2 2 1 1 (1/2) (4/5) 0 0 60 150 false
      (fun _ => (trivialPhaseInput, trivialPhaseInput))).events.count
        SessEvent.extendPhase = 1 :=
  ⟨(session_runs_all_phases 40 2 2 1 1 (1/2) (4/5) 0 0 60 150 false
      (fun _ => (trivialPhaseInput, trivialPhaseInput)) _ rfl (by norm_num)
      rfl).2.2.2.2.2.2.1,
   (session_runs_all_phases 40 2 2 1 1 (1/2) (4/5) 0 0 60 150 false
      (fun _ => (trivialPhaseInput, trivialPhaseInput)) _ rfl (by norm_num)
      rfl).2.1⟩

lemma phaseLoop_fault_zeroes (duty duration ramp vmax vhard : ℚ) :
    ∀ (ticks : List Tick) (lastB lastC lastT : ℚ),
      (phaseLoop duty duration ramp vmax vhard ticks lastB lastC lastT).faulted = true →
      ∃ front, (phaseLoop duty duration ramp vmax vhard ticks lastB lastC lastT).acts =
        front ++ set_both_power 0 := by
  intro ticks
  induction ticks with
  | nil =>
    intro lastB lastC lastT h
    exact absurd h (by simp [phaseLoop])
  | cons tk rest ih =>
    intro lastB lastC lastT h
    rw [phaseLoop] at h ⊢
    by_cases hbr : duration < tk.t
    · rw [if_pos hbr] at h
      exact absurd h (by simp)
    · rw [if_neg hbr] at h ⊢
      cases hvg : velocityGuard
          (loopVel ((tk.aB + tk.aC) / 2) ((lastB + lastC) / 2) tk.t lastT)
          (phased_power_profile tk.t duration ramp duty) vmax vhard with
      | none =>
        exact ⟨[], rfl⟩
      | some cmd =>
        rw [hvg] at h
        dsimp only at h ⊢
        obtain ⟨front, hfr⟩ := ih tk.aB tk.aC tk.t h
        exact ⟨set_both_power cmd ++ front, by rw [hfr, List.append_assoc]⟩

lemma run_phase_fault_ends_zero (duty0 duration ramp0 hold_power hold_time vmax
    vhard e0B e0C : ℚ) (ticks : List Tick)
    (h : (run_phase duty0 duration ramp0 hold_power hold_time vmax vhard
      e0B e0C ticks).2.isFault = true) :
    ∃ front, (run_phase duty0 duration ramp0 hold_power hold_time vmax vhard
      e0B e0C ticks).1 = front ++ set_both_power 0 := by
  unfold run_phase at h ⊢
  by_cases hf : (phaseLoop ((pyInt (clamp duty0 (-100) 100) : ℚ)) duration
      (clamp ramp0 0 (duration / 2)) vmax vhard ticks e0B e0C 0).faulted = true
  · rw [if_pos hf] at h ⊢
    exact phaseLoop_fault_zeroes _ _ _ _ _ ticks e0B e0C 0 hf
  · rw [if_neg hf] at h
    exact absurd h (by simp [PhaseOutcome.isFault])

lemma runReps_fault_extend_at (c : Cfg) (inputs : ℕ → PhaseInput × PhaseInput)
    (k m : ℕ) (h : (extendPhaseRun c (inputs k).1).2.isFault = true) :
    runReps c inputs (m + 1) k =
      ⟨(extendPhaseRun c (inputs k).1).1, [SessEvent.extendPhase], [], true⟩ := by
  rw [runReps, if_pos h]

lemma runReps_fault_flex_at (c : Cfg) (inputs : ℕ → PhaseInput × PhaseInput)
    (k m : ℕ) (h1 : (extendPhaseRun c (inputs k).1).2.isFault = false)
    (h2 : (flexPhaseRun c (inputs k).2).2.isFault = true) :
    runReps c inputs (m + 1) k =
      ⟨(extendPhaseRun c (inputs k).1).1 ++ (flexPhaseRun c (inputs k).2).1,
       SessEvent.extendPhase :: (midEvents c ++ [SessEvent.flexPhase]),
       [phaseScore (extendPhaseRun c (inputs k).1)], true⟩ := by
  rw [runReps, if_neg (by rw [h1]; exact Bool.false_ne_true), if_pos h2]

lemma runReps_firstFault_general (c : Cfg) (inputs : ℕ → PhaseInput × PhaseInput)
    (k : ℕ) (tailEv : List SessEvent) (tailLen : ℕ)
    (hbase : ∀ m, (runReps c inputs (m + 1) k).faulted = true ∧
      (runReps c inputs (m + 1) k).events = tailEv ∧
      (runReps c inputs (m + 1) k).scores.length = tailLen) :
    ∀ n i, 1 ≤ i → i ≤ k → i + n = c.reps + 1 → k ≤ c.reps →
      (∀ j, i ≤ j → j < k → (extendPhaseRun c (inputs j).1).2.isFault = false ∧
        (flexPhaseRun c (inputs j).2).2.isFault = false) →
      (runReps c inputs n i).faulted = true ∧
      (runReps c inputs n i).events =
        ((List.range (k - i)).flatMap fun _ =>
          SessEvent.extendPhase :: (midEvents c ++ [SessEvent.flexPhase] ++
            (if 0 < c.rest then [SessEvent.interRest] else []))) ++ tailEv ∧
      (runReps c inputs n i).scores.length = 2 * (k - i) + tailLen := by
  intro n
  induction n with
  | zero =>
    intro i h1 h2 h3 h4 _
    omega
  | succ m ih =>
    intro i h1 h2 h3 h4 hprev
    by_cases hik : i = k
    · subst hik
      obtain ⟨hf, he, hl⟩ := hbase m
      rw [Nat.sub_self, List.range_zero, List.flatMap_nil, List.nil_append]
      exact ⟨hf, he, by rw [hl]; omega⟩
    · have hlt : i < k := lt_of_le_of_ne h2 hik
      obtain ⟨hEo, hFo⟩ := hprev i le_rfl hlt
      obtain ⟨ihf, ihe, ihs⟩ := ih (i + 1) (by omega) (by omega) (by omega) h4
        (fun j hj1 hj2 => hprev j (by omega) hj2)
      have hne : ¬ (extendPhaseRun c (inputs i).1).2.isFault = true := by
        rw [hEo]; exact Bool.false_ne_true
      have hnf : ¬ (flexPhaseRun c (inputs i).2).2.isFault = true := by
        rw [hFo]; exact Bool.false_ne_true
      refine ⟨?_, ?_, ?_⟩
      · rw [runReps, if_neg hne, if_neg hnf]
        exact ihf
      · rw [runReps, if_neg hne, if_neg hnf]
        dsimp only
        rw [ihe, restEvents_of_lt c i (by omega),
          show k - i = (k - (i + 1)) + 1 by omega, range_flatMap_succ]
        simp only [List.cons_append, List.append_assoc]
      · rw [runReps, if_neg hne, if_neg hnf]
        dsimp only
        rw [List.length_cons, List.length_cons, ihs]
        omega

/-- C3: if the hard velocity limit trips in some phase (repetition `k`,
either in its EXTEND phase, `wh = false`, or in its FLEX phase after a clean
EXTEND, `wh = true`, all earlier phases being clean), then the faulting
phase's action stream ends with the immediate zero-power write to both
actuators emitted before the fault is signalled, the session ends faulted
(Aborted, not retried), its event list stops exactly at the faulted phase —
no further phases are issued — and the final zero-power/`reset_all` teardown
of `main`'s `finally` block still closes the action stream. -/
theorem hard_fault_aborts_session
    (power tflex0 textend0 : ℚ) (reps0 : ℕ)
    (rest0 midrest0 ramp0 hold_power0 hold_time0 vmax vhard : ℚ) (invert : Bool)
    (inputs : ℕ → PhaseInput × PhaseInput) (c : Cfg) (k : ℕ) (wh : Bool)
    (hc : c = mainCfg power tflex0 textend0 reps0 rest0 midrest0 ramp0
      hold_power0 hold_time0 vmax vhard invert)
    (hk1 : 1 ≤ k) (hk2 : k ≤ c.reps)
    (hprev : ∀ j, 1 ≤ j → j < k →
      (extendPhaseRun c (inputs j).1).2.isFault = false ∧
      (flexPhaseRun c (inputs j).2).2.isFault = false)
    (hflt : if wh = true then
        (extendPhaseRun c (inputs k).1).2.isFault = false ∧
        (flexPhaseRun c (inputs k).2).2.isFault = true
      else (extendPhaseRun c (inputs k).1).2.isFault = true) :
    (main power tflex0 textend0 reps0 rest0 midrest0 ramp0 hold_power0
        hold_time0 vmax vhard invert inputs).faulted = true ∧
    (main power tflex0 textend0 reps0 rest0 midrest0 ramp0 hold_power0
        hold_time0 vmax vhard invert inputs).events =
      ((List.range (k - 1)).flatMap fun _ =>
        SessEvent.extendPhase :: (midEvents c ++ [SessEvent.flexPhase] ++
          (if 0 < c.rest then [SessEvent.interRest] else []))) ++
      (if wh = true then
        SessEvent.extendPhase :: (midEvents c ++ [SessEvent.flexPhase])
      else [SessEvent.extendPhase]) ∧
    (main power tflex0 textend0 reps0 rest0 midrest0 ramp0 hold_power0
        hold_time0 vmax vhard invert inputs).scores.length =
      2 * (k - 1) + (if wh = true then 1 else 0) ∧
    (∃ front, (if wh = true then (flexPhaseRun c (inputs k).2).1
        else (extendPhaseRun c (inputs k).1).1) = front ++ set_both_power 0) ∧
    (∃ front, (main power tflex0 textend0 reps0 rest0 midrest0 ramp0 hold_power0
        hold_time0 vmax vhard invert inputs).acts =
      front ++ (set_both_power 0 ++ [Act.resetAll])) := by
  have hfa : (main power tflex0 textend0 reps0 rest0 midrest0 ramp0 hold_power0
      hold_time0 vmax vhard invert inputs).faulted =
      (runReps (mainCfg power tflex0 textend0 reps0 rest0 midrest0 ramp0
        hold_power0 hold_time0 vmax vhard invert) inputs
        (mainCfg power tflex0 textend0 reps0 rest0 midrest0 ramp0
          hold_power0 hold_time0 vmax vhard invert).reps 1).faulted := rfl
  rw [← hc] at hfa
  have hev : (main power tflex0 textend0 reps0 rest0 midrest0 ramp0 hold_power0
      hold_time0 vmax vhard invert inputs).events =
      (runReps (mainCfg power tflex0 textend0 reps0 rest0 midrest0 ramp0
        hold_power0 hold_time0 vmax vhard invert) inputs
        (mainCfg power tflex0 textend0 reps0 rest0 midrest0 ramp0
          hold_power0 hold_time0 vmax vhard invert).reps 1).events := rfl
  rw [← hc] at hev
  have hsc : (main power tflex0 textend0 reps0 rest0 midrest0 ramp0 hold_power0
      hold_time0 vmax vhard invert inputs).scores =
      (runReps (mainCfg power tflex0 textend0 reps0 rest0 midrest0 ramp0
        hold_power0 hold_time0 vmax vhard invert) inputs
        (mainCfg power tflex0 textend0 reps0 rest0 midrest0 ramp0
          hold_power0 hold_time0 vmax vhard invert).reps 1).scores := rfl
  rw [← hc] at hsc
  have hma : (main power tflex0 textend0 reps0 rest0 midrest0 ramp0 hold_power0
      hold_time0 vmax vhard invert inputs).acts =
      set_both_power 0 ++
        ((runReps (mainCfg power tflex0 textend0 reps0 rest0 midrest0 ramp0
          hold_power0 hold_time0 vmax vhard invert) inputs
          (mainCfg power tflex0 textend0 reps0 rest0 midrest0 ramp0
            hold_power0 hold_time0 vmax vhard invert).reps 1).acts ++
          (set_both_power 0 ++ [Act.resetAll])) := rfl
  rw [← hc] at hma
  obtain ⟨n, hn⟩ : ∃ n, c.reps = n := ⟨c.reps, rfl⟩
  rw [hn] at hfa hev hsc hma hk2
  cases wh with
  | false =>
    rw [if_neg Bool.false_ne_true] at hflt
    have hbase : ∀ m, (runReps c inputs (m + 1) k).faulted = true ∧
        (runReps c inputs (m + 1) k).events = [SessEvent.extendPhase] ∧
        (runReps c inputs (m + 1) k).scores.length = 0 := by
      intro m
      rw [runReps_fault_extend_at c inputs k m hflt]
      exact ⟨rfl, rfl, rfl⟩
    obtain ⟨hf, he, hl⟩ := runReps_firstFault_general c inputs k
      [SessEvent.extendPhase] 0 hbase n 1 le_rfl hk1 (by omega) (by omega)
      (fun j hj1 hj2 => hprev j hj1 hj2)
    refine ⟨by rw [hfa, hf], ?_, ?_, ?_, ?_⟩
    · rw [hev, he, if_neg Bool.false_ne_true]
    · rw [hsc, hl, if_neg Bool.false_ne_true]
    · rw [if_neg Bool.false_ne_true]
      exact run_phase_fault_ends_zero (c.sext * c.duty) c.textend c.ramp
        c.hold_power c.hold_time c.vmax c.vhard (inputs k).1.e0B (inputs k).1.e0C
        (inputs k).1.ticks hflt
    · exact ⟨set_both_power 0 ++ (runReps c inputs n 1).acts,
        by rw [hma, ← List.append_assoc]⟩
  | true =>
    rw [if_pos rfl] at hflt
    have hbase : ∀ m, (runReps c inputs (m + 1) k).faulted = true ∧
        (runReps c inputs (m + 1) k).events =
          SessEvent.extendPhase :: (midEvents c ++ [SessEvent.flexPhase]) ∧
        (runReps c inputs (m + 1) k).scores.length = 1 := by
      intro m
      rw [runReps_fault_flex_at c inputs k m hflt.1 hflt.2]
      exact ⟨rfl, rfl, rfl⟩
    obtain ⟨hf, he, hl⟩ := runReps_firstFault_general c inputs k
      (SessEvent.extendPhase :: (midEvents c ++ [SessEvent.flexPhase])) 1 hbase
      n 1 le_rfl hk1 (by omega) (by omega) (fun j hj1 hj2 => hprev j hj1 hj2)
    refine ⟨by rw [hfa, hf], ?_, ?_, ?_, ?_⟩
    · rw [hev, he, if_pos rfl]
    · rw [hsc, hl, if_pos rfl]
    · rw [if_pos rfl]
      exact run_phase_fault_ends_zero (c.sflex * c.duty) c.tflex c.ramp
        c.hold_power c.hold_time c.vmax c.vhard (inputs k).2.e0B (inputs k).2.e0C
        (inputs k).2.ticks hflt.2
    · exact ⟨set_both_power 0 ++ (runReps c inputs n 1).acts,
        by rw [hma, ← List.append_assoc]⟩

/-- A phase environment whose single loop iteration reads an encoder jump of
1000° in 10 ms — a mean-angle velocity of 100000 °/s, far beyond any hard
limit. -/
def faultingPhaseInput : PhaseInput := ⟨0, 0, [⟨1/100, 1000, 1000⟩]⟩

/-- C3 witness: a one-repetition session whose first EXTEND phase trips the
hard velocity limit; the fault theorem applies with all hypotheses
discharged, instantiated here at the aborted flag, the single-phase event
list and the teardown-suffix conclusions. -/
theorem hard_fault_aborts_session_witness :
    (main 40 2 2 1 1 (1/2) (4/5) 0 0 60 150 false
      (fun _ => (faultingPhaseInput, trivialPhaseInput))).faulted = true ∧
    (main 40 2 2 1 1 (1/2) (4/5) 0 0 60 150 false
      (fun _ => (faultingPhaseInput, trivialPhaseInput))).events =
      ((List.range (1 - 1)).flatMap fun _ =>
        SessEvent.extendPhase :: (midEvents (mainCfg 40 2 2 1 1 (1/2) (4/5) 0 0 60 150 false) ++
          [SessEvent.flexPhase] ++
          (if 0 < (mainCfg 40 2 2 1 1 (1/2) (4/5) 0 0 60 150 false).rest then
            [SessEvent.interRest] else []))) ++
      (if (false : Bool) = true then
        SessEvent.extendPhase :: (midEvents (mainCfg 40 2 2 1 1 (1/2) (4/5) 0 0 60 150 false) ++
          [SessEvent.flexPhase])
      else [SessEvent.extendPhase]) ∧
    (∃ front, (main 40 2 2 1 1 (1/2) (4/5) 0 0 60 150 false
      (fun _ => (faultingPhaseInput, trivialPhaseInput))).acts =
      front ++ (set_both_power 0 ++ [Act.resetAll])) := by
  have h := hard_fault_aborts_session 40 2 2 1 1 (1/2) (4/5) 0 0 60 150 false
    (fun _ => (faultingPhaseInput, trivialPhaseInput))
    (mainCfg 40 2 2 1 1 (1/2) (4/5) 0 0 60 150 false) 1 false rfl le_rfl
    (by norm_num [mainCfg])
    (fun j h1 h2 => absurd h2 (by omega))
    (by
      rw [if_neg Bool.false_ne_true]
      norm_num [extendPhaseRun, run_phase, phaseLoop, velocityGuard, loopVel,
        safeDt, SAMPLE_DT, mainCfg, clamp, pyInt, PhaseOutcome.isFault,
        faultingPhaseInput])
  exact ⟨h.1, h.2.1, h.2.2.2.2⟩

/-- Whether one poll of `_wait_until_settled` (`exo_control_gui.py`,
lines 110-117) sees both finite-difference velocities (over the fixed 50 ms
poll interval) strictly below the threshold. -/
def slowPair (thr : ℚ) (last cur : ℚ × ℚ) : Bool :=
  decide (|cur.1 - last.1| / (1 / 20) < thr ∧ |cur.2 - last.2| / (1 / 20) < thr)

/-- The per-poll slowness flags of a run of `_wait_until_settled`, where
`last` are the most recent encoder readings. -/
def slowFlags (thr : ℚ) : (ℚ × ℚ) → List (ℚ × ℚ) → List Bool
  | _, [] => []
  | last, e :: rest => slowPair thr last e :: slowFlags thr e rest

/-- Length of the streak of consecutive `true` flags ending at the end of
the list, continuing an incoming streak of `c`. -/
def streakAfter : ℕ → List Bool → ℕ
  | c, [] => c
  | c, b :: rest => streakAfter (if b then c + 1 else 0) rest

/-- The loop of `ExoController._wait_until_settled` (lines 103-127), with
the stop flag never set: each iteration sleeps 50 ms, reads both encoders,
forms `|Δe| / 0.05` per motor, accumulates `stable_time` (reset on a fast
poll), and exits once `stable_time > 0.3` (settled, `true`) or once the
elapsed time exceeds the timeout ceiling (`false`).  Returns the number of
polls consumed and the settled flag; an exhausted reading list ends the run
with `false`. -/
def waitLoop (thr ceil : ℚ) : List (ℚ × ℚ) → ℚ → ℚ → ℚ → ℕ → ℕ × Bool
  | [], _, _, _, n => (n, false)
  | e :: rest, lastB, lastC, stable, n =>
    let vB := |e.1 - lastB| / (1 / 20)
    let vC := |e.2 - lastC| / (1 / 20)
    let stable2 := if vB < thr ∧ vC < thr then stable + 1 / 20 else 0
    if 3 / 10 < stable2 then (n + 1, true)
    else if ceil < ((n + 1 : ℕ) : ℚ) * (1 / 20) then (n + 1, false)
    else waitLoop thr ceil rest e.1 e.2 stable2 (n + 1)

/-- The settling threshold `max(5, 0.1·dps)` of line 117. -/
def settleThreshold (dps : ℚ) : ℚ := max 5 ((1 / 10) * dps)

/-- The timeout ceiling `max(2.0, 10.0 + 360.0 / max(10, dps))` of
line 122. -/
def settleCeil (dps : ℚ) : ℚ := max 2 (10 + 360 / max 10 dps)

/-- Source `ExoController._wait_until_settled(dps)` run on a list of polled
encoder readings, starting from the initial readings `(e0B, e0C)` with zero
accumulated stable time. -/
def wait_until_settled (dps e0B e0C : ℚ) (readings : List (ℚ × ℚ)) : ℕ × Bool :=
  waitLoop (settleThreshold dps) (settleCeil dps) readings e0B e0C 0 0

/-- The two exit conditions of the settling wait, at 0-based poll index `j`,
for a loop entered with an incoming slow streak of `c0` polls and `n0` polls
already elapsed: either the slow streak reaches 7 consecutive polls (i.e.
the accumulated stable time `7 · 0.05 s = 0.35 s` first exceeds the 0.3 s
window) or the elapsed time exceeds the ceiling. -/
def settleExit (thr ceil : ℚ) (last : ℚ × ℚ) (rs : List (ℚ × ℚ))
    (c0 n0 j : ℕ) : Prop :=
  7 ≤ streakAfter c0 ((slowFlags thr last rs).take (j + 1)) ∨
  ceil < ((n0 + j + 1 : ℕ) : ℚ) * (1 / 20)

instance settleExit_decidable (thr ceil : ℚ) (last : ℚ × ℚ)
    (rs : List (ℚ × ℚ)) (c0 n0 j : ℕ) :
    Decidable (settleExit thr ceil last rs c0 n0 j) := by
  unfold settleExit
  infer_instance

lemma stable_gt_iff (c2 : ℕ) : (3 / 10 : ℚ) < (c2 : ℚ) * (1 / 20) ↔ 7 ≤ c2 := by
  constructor
  · intro h
    have h6 : (6 : ℚ) < (c2 : ℚ) := by linarith
    have : (6 : ℕ) < c2 := by exact_mod_cast h6
    omega
  · intro h
    have : (7 : ℚ) ≤ (c2 : ℚ) := by exact_mod_cast h
    linarith

lemma settleExit_cons (thr ceil : ℚ) (lastB lastC : ℚ) (e : ℚ × ℚ)
    (rest : List (ℚ × ℚ)) (c n j : ℕ) :
    settleExit thr ceil (lastB, lastC) (e :: rest) c n (j + 1) ↔
      settleExit thr ceil e rest
        (if slowPair thr (lastB, lastC) e then c + 1 else 0) (n + 1) j := by
  unfold settleExit
  have h1 : streakAfter c ((slowFlags thr (lastB, lastC) (e :: rest)).take (j + 1 + 1)) =
      streakAfter (if slowPair thr (lastB, lastC) e then c + 1 else 0)
        ((slowFlags thr e rest).take (j + 1)) := rfl
  rw [h1, show n + (j + 1) + 1 = n + 1 + j + 1 by omega]

lemma waitLoop_exit_spec (thr ceil : ℚ) :
    ∀ (rs : List (ℚ × ℚ)) (lastB lastC : ℚ) (c n j : ℕ),
      j < rs.length →
      settleExit thr ceil (lastB, lastC) rs c n j →
      (∀ m, m < j → ¬ settleExit thr ceil (lastB, lastC) rs c n m) →
      waitLoop thr ceil rs lastB lastC ((c : ℚ) * (1 / 20)) n =
        (n + j + 1,
         decide (7 ≤ streakAfter c ((slowFlags thr (lastB, lastC) rs).take (j + 1)))) := by
  intro rs
  induction rs with
  | nil =>
    intro lastB lastC c n j hj _ _
    exact absurd hj (by simp)
  | cons e rest ih =>
    intro lastB lastC c n j hj hex hmin
    rw [waitLoop]
    have hstable : (if |e.1 - lastB| / (1 / 20) < thr ∧ |e.2 - lastC| / (1 / 20) < thr
        then (c : ℚ) * (1 / 20) + 1 / 20 else 0) =
        ((if slowPair thr (lastB, lastC) e then c + 1 else 0 : ℕ) : ℚ) * (1 / 20) := by
      by_cases hb : |e.1 - lastB| / (1 / 20) < thr ∧ |e.2 - lastC| / (1 / 20) < thr
      · rw [if_pos hb, if_pos (by exact decide_eq_true hb)]
        push_cast
        ring
      · rw [if_neg hb, if_neg (by rw [slowPair, decide_eq_true_eq]; exact hb)]
        norm_num
    rw [hstable]
    cases j with
    | zero =>
      unfold settleExit at hex
      have hs1 : streakAfter c ((slowFlags thr (lastB, lastC) (e :: rest)).take (0 + 1)) =
          (if slowPair thr (lastB, lastC) e then c + 1 else 0) := rfl
      by_cases h7 : 7 ≤ (if slowPair thr (lastB, lastC) e then c + 1 else 0)
      · rw [if_pos ((stable_gt_iff _).2 h7)]
        have hd : decide (7 ≤ streakAfter c
            ((slowFlags thr (lastB, lastC) (e :: rest)).take (0 + 1))) = true := by
          rw [hs1]
          exact decide_eq_true h7
        rw [hd]
      · have hto : ceil < ((n + 0 + 1 : ℕ) : ℚ) * (1 / 20) := by
          rcases hex with h | h
          · rw [hs1] at h
            exact absurd h h7
          · exact h
        rw [if_neg (fun hlt => h7 ((stable_gt_iff _).1 hlt)), if_pos hto]
        have hd : decide (7 ≤ streakAfter c
            ((slowFlags thr (lastB, lastC) (e :: rest)).take (0 + 1))) = false := by
          rw [hs1]
          exact decide_eq_false h7
        rw [hd]
    | succ j2 =>
      have hm0 := hmin 0 (by omega)
      unfold settleExit at hm0
      push_neg at hm0
      obtain ⟨hn7, hle⟩ := hm0
      have hs1 : streakAfter c ((slowFlags thr (lastB, lastC) (e :: rest)).take (0 + 1)) =
          (if slowPair thr (lastB, lastC) e then c + 1 else 0) := rfl
      rw [hs1] at hn7
      have hn7b : ¬ 7 ≤ (if slowPair thr (lastB, lastC) e then c + 1 else 0) := by
        omega
      rw [if_neg (fun hlt => hn7b ((stable_gt_iff _).1 hlt)), if_neg (not_lt.2 hle)]
      rw [ih e.1 e.2 (if slowPair thr (lastB, lastC) e then c + 1 else 0) (n + 1) j2
        (by simp only [List.length_cons] at hj; omega)
        ((settleExit_cons thr ceil lastB lastC e rest c n j2).1 hex)
        (fun m hm => fun hx => hmin (m + 1) (by omega)
          ((settleExit_cons thr ceil lastB lastC e rest c n m).2 hx))]
      rw [show n + 1 + j2 + 1 = n + (j2 + 1) + 1 by omega]
      rfl

/-- C8: for commanded speed `dps` (already clamped to at least 10 °/s by
`set_speed_dps`, hence `max(10, dps) = dps`), the settling wait finishes at
poll `j + 1` exactly when `j` is the first poll at which either both
finite-difference velocities have stayed below `max(5, 0.1·dps)` for seven
consecutive 50 ms polls (the accumulated stable window first exceeding
0.3 s) or the elapsed time exceeds `max(2.0, 10.0 + 360/dps)` seconds —
whichever occurs first — and the settled flag tells which of the two
conditions fired. -/
theorem wait_until_settled_first_exit (dps e0B e0C : ℚ) (rs : List (ℚ × ℚ))
    (j : ℕ) (hdps : 10 ≤ dps) (hj : j < rs.length)
    (hex : settleExit (max 5 ((1 / 10) * dps)) (max 2 (10 + 360 / dps))
      (e0B, e0C) rs 0 0 j)
    (hmin : ∀ m, m < j → ¬ settleExit (max 5 ((1 / 10) * dps))
      (max 2 (10 + 360 / dps)) (e0B, e0C) rs 0 0 m) :
    settleThreshold dps = max 5 ((1 / 10) * dps) ∧
    settleCeil dps = max 2 (10 + 360 / dps) ∧
    wait_until_settled dps e0B e0C rs =
      (j + 1, decide (7 ≤ streakAfter 0
        ((slowFlags (max 5 ((1 / 10) * dps)) (e0B, e0C) rs).take (j + 1)))) := by
  have hmax : max 10 dps = dps := max_eq_right hdps
  have hceil : settleCeil dps = max 2 (10 + 360 / dps) := by
    unfold settleCeil
    rw [hmax]
  refine ⟨rfl, hceil, ?_⟩
  unfold wait_until_settled settleThreshold
  rw [hceil]
  have h0 : waitLoop (max 5 (1 / 10 * dps)) (max 2 (10 + 360 / dps)) rs e0B e0C 0 0 =
      waitLoop (max 5 (1 / 10 * dps)) (max 2 (10 + 360 / dps)) rs e0B e0C
        (((0 : ℕ) : ℚ) * (1 / 20)) 0 := by norm_num
  rw [h0, waitLoop_exit_spec (max 5 ((1 / 10) * dps)) (max 2 (10 + 360 / dps))
    rs e0B e0C 0 0 j hj hex hmin, Nat.zero_add]

/-- Seven polls in a row during which both encoders sit still. -/
def calmReadings : List (ℚ × ℚ) :=
  [(0, 0), (0, 0), (0, 0), (0, 0), (0, 0), (0, 0), (0, 0)]

/-- C8 witness: at `dps = 100` (threshold `max(5,10) = 10`, ceiling
`max(2, 13.6) = 13.6 s`), seven motionless polls settle the wait at poll 7
with the settled flag `true`. -/
theorem wait_until_settled_first_exit_witness :
    wait_until_settled 100 0 0 calmReadings =
      (6 + 1, decide (7 ≤ streakAfter 0
        ((slowFlags (max 5 ((1 / 10) * 100)) ((0 : ℚ), (0 : ℚ)) calmReadings).take (6 + 1)))) ∧
    wait_until_settled 100 0 0 calmReadings = (7, true) := by
  have hsp : slowPair 10 (0 : ℚ × ℚ) (0 : ℚ × ℚ) = true := by
    rw [slowPair, decide_eq_true_eq]
    norm_num
  have hmain := (wait_until_settled_first_exit 100 0 0 calmReadings 6
    (by norm_num) (by norm_num [calmReadings])
    (by
      unfold settleExit
      left
      norm_num [calmReadings, slowFlags, hsp, streakAfter])
    (by
      intro m hm
      unfold settleExit
      push_neg
      interval_cases m <;>
        exact ⟨by norm_num [calmReadings, slowFlags, hsp, streakAfter], by norm_num⟩)).2.2
  refine ⟨hmain, ?_⟩
  rw [hmain]
  norm_num [calmReadings, slowFlags, hsp, streakAfter]
